import Mathlib

/-!
Verification of the SCTT minimal type checker (`sctt_typechecker.rs`):
a bidirectional checker with normalization by evaluation for a dependent
type theory with cubical path types.

The Rust source is embedded shallowly.  Rust recursion is modelled with an
explicit fuel parameter: every recursive routine takes a `Nat` fuel and
returns `RunResult.outOfFuel` when it is exhausted, so a computation that
returns `outOfFuel` at every fuel corresponds to a diverging Rust call.
Rust `panic!`/`todo!` branches are modelled by `RunResult.fault`, and the
checker's `Result<T, TypeError>` by `RunResult.ok`/`RunResult.error`.
-/

namespace SCTT

/-- Universe levels (`enum Level`): `Zero | Succ(usize) | Omega`. -/
inductive Level where
  | Zero
  | Succ (n : Nat)
  | Omega
deriving DecidableEq, Repr

/-- `Level::max` as written in the source. -/
def Level.max : Level → Level → Level
  | .Omega, _ => .Omega
  | _, .Omega => .Omega
  | .Zero, l => l
  | l, .Zero => l
  | .Succ i, .Succ j => .Succ (Nat.max i j)

/-- `Level::succ` as written in the source. -/
def Level.succ : Level → Level
  | .Zero => .Succ 1
  | .Succ n => .Succ (n + 1)
  | .Omega => .Omega

/-- Interval points (`enum IntervalPoint`), the free De Morgan algebra term. -/
inductive IntervalPoint where
  | Zero
  | One
  | Var (i : Nat)
  | Meet (a b : IntervalPoint)
  | Join (a b : IntervalPoint)
  | Neg (a : IntervalPoint)
deriving DecidableEq, Repr

/-- Core term language (`enum Term`), with De Bruijn indices as `Nat`. -/
inductive Term where
  | Var (i : Nat)
  | Universe (l : Level)
  | Lambda (dom body : Term)
  | App (f a : Term)
  | Pi (a b : Term)
  | PathType (A s e : Term)
  | PathLambda (body : Term)
  | PathApp (p : Term) (i : IntervalPoint)
  | Interval (i : IntervalPoint)
  | Transport (A : Term) (i j : IntervalPoint) (t : Term)
  | Hcomp (A : Term) (sys : List (IntervalPoint × IntervalPoint × Term)) (base : Term)

mutual
/-- Semantic values (`enum Value`). -/
inductive Value where
  | Neutral (n : Neutral)
  | Universe (l : Level)
  | Lambda (c : Closure)
  | Pi (a : Value) (c : Closure)
  | PathType (A s e : Value)
  | PathLambda (c : PathClosure)
  | Interval (i : IntervalPoint)
/-- Stuck computations (`enum Neutral`). -/
inductive Neutral where
  | Var (i : Nat)
  | App (n : Neutral) (v : Value)
  | PathApp (n : Neutral) (i : IntervalPoint)
  | Transport (A : Value) (i j : IntervalPoint) (n : Neutral)
/-- `struct Environment { values: Vec<Value> }`; index 0 of the list is the
oldest binding, matching the Rust `Vec` push order. -/
inductive Environment where
  | mk (values : List Value)
/-- `struct Closure { env, body }`. -/
inductive Closure where
  | mk (env : Environment) (body : Term)
/-- `struct PathClosure { env, body }`. -/
inductive PathClosure where
  | mk (env : Environment) (body : Term)
end

def Environment.values : Environment → List Value
  | .mk vs => vs

def Closure.env : Closure → Environment
  | .mk e _ => e

def Closure.body : Closure → Term
  | .mk _ b => b

def PathClosure.env : PathClosure → Environment
  | .mk e _ => e

def PathClosure.body : PathClosure → Term
  | .mk _ b => b

/-- `Environment::new`. -/
def Environment.new : Environment := .mk []

/-- `Environment::extend`: clones and pushes at the end of the vector. -/
def Environment.extend (e : Environment) (v : Value) : Environment :=
  .mk (e.values ++ [v])

/-- `Environment::lookup`: `len.checked_sub(idx+1)` then `get`. -/
def Environment.lookup (e : Environment) (idx : Nat) : Option Value :=
  if idx + 1 ≤ e.values.length then e.values[e.values.length - (idx + 1)]? else none

/-- `struct Context { types: Vec<Value>, env: Environment }`. -/
structure Context where
  types : List Value
  env : Environment

/-- `Context::new`. -/
def Context.new : Context := ⟨[], Environment.new⟩

/-- `Context::extend`: pushes the type, then binds the new position to the
neutral variable `Var(types.len() - 1)` (the length after the push). -/
def Context.extend (c : Context) (ty : Value) : Context :=
  let types := c.types ++ [ty]
  { types := types
    env := c.env.extend (Value.Neutral (Neutral.Var (types.length - 1))) }

/-- `Context::lookup`. -/
def Context.lookup (c : Context) (idx : Nat) : Option Value :=
  if idx + 1 ≤ c.types.length then c.types[c.types.length - (idx + 1)]? else none

/-- `Context::extend` takes `&self` and clones, so the receiver is untouched.
This wrapper makes the receiver's post-call state explicit: the first
component is the returned context, the second is the receiver after the call
(unchanged, because the source never mutates through `&self`). -/
def Context.extendMut (c : Context) (ty : Value) : Context × Context :=
  (c.extend ty, c)

/-- `enum TypeError` (§7 taxonomy). -/
inductive TypeError where
  | UnboundVariable (idx : Nat)
  | TypeMismatch (expected found : Value)
  | NotAFunction (v : Value)
  | NotAPath (v : Value)
  | NotAUniverse (v : Value)
  | InvalidInterval
  | UnificationFailure

/-- Outcome of running a checker routine with a given amount of fuel:
`ok`/`error` are the Rust `Result` constructors, `fault` models a
`panic!`/`todo!`, and `outOfFuel` means the recursion budget was exhausted
(so `outOfFuel` for every fuel models divergence of the Rust code). -/
inductive RunResult (α : Type) where
  | ok (a : α)
  | error (e : TypeError)
  | fault (msg : String)
  | outOfFuel

def RunResult.bind {α β : Type} : RunResult α → (α → RunResult β) → RunResult β
  | .ok a, f => f a
  | .error e, _ => .error e
  | .fault m, _ => .fault m
  | .outOfFuel, _ => .outOfFuel

instance : Monad RunResult where
  pure := .ok
  bind := RunResult.bind

/-- `struct TypeChecker { max_depth: usize }`. -/
structure TypeChecker where
  maxDepth : Nat

/-- `TypeChecker::new`. -/
def TypeChecker.new : TypeChecker := ⟨1000⟩

/-- `TypeChecker::substitute_interval`, exactly as in the source: only the
`Interval` and `Lambda` constructors are handled, everything else is
returned unchanged (the source comment reads "Simplified for demonstration -
full implementation would handle all cases"). -/
def substituteInterval (t : Term) (i : IntervalPoint) : Term :=
  match t with
  | .Interval _ => .Interval i
  | .Lambda ty body => .Lambda (substituteInterval ty i) (substituteInterval body i)
  | t => t

mutual
/-- `TypeChecker::eval`. -/
def evalF (tc : TypeChecker) : Nat → Environment → Term → RunResult Value
  | 0, _, _ => .outOfFuel
  | fuel + 1, env, t =>
    match t with
    | .Var idx =>
      match env.lookup idx with
      | some v => .ok v
      | none => .ok (.Neutral (.Var idx))
    | .Universe l => .ok (.Universe l)
    | .Lambda _ body => .ok (.Lambda (.mk env body))
    | .Pi a b => do
      let aVal ← evalF tc fuel env a
      pure (.Pi aVal (.mk env b))
    | .App f a => do
      let fv ← evalF tc fuel env f
      let av ← evalF tc fuel env a
      applyValueF tc fuel fv av
    | .PathType a s e => do
      let av ← evalF tc fuel env a
      let sv ← evalF tc fuel env s
      let ev ← evalF tc fuel env e
      pure (.PathType av sv ev)
    | .PathLambda body => .ok (.PathLambda (.mk env body))
    | .PathApp p i => do
      let pv ← evalF tc fuel env p
      applyPathF tc fuel pv i
    | .Interval i => .ok (.Interval i)
    | .Transport _ _ _ _ => .fault "not yet implemented: eval"
    | .Hcomp _ _ _ => .fault "not yet implemented: eval"

/-- `TypeChecker::apply_value`. -/
def applyValueF (tc : TypeChecker) : Nat → Value → Value → RunResult Value
  | 0, _, _ => .outOfFuel
  | fuel + 1, f, arg =>
    match f with
    | .Lambda c => applyClosureF tc fuel c arg
    | .Neutral n => .ok (.Neutral (.App n arg))
    | _ => .fault "Cannot apply non-function"

/-- `TypeChecker::apply_path`. -/
def applyPathF (tc : TypeChecker) : Nat → Value → IntervalPoint → RunResult Value
  | 0, _, _ => .outOfFuel
  | fuel + 1, p, i =>
    match p with
    | .PathLambda (.mk env body) => evalF tc fuel env (substituteInterval body i)
    | .Neutral n => .ok (.Neutral (.PathApp n i))
    | _ => .fault "Cannot apply non-path"

/-- `TypeChecker::apply_closure`. -/
def applyClosureF (tc : TypeChecker) : Nat → Closure → Value → RunResult Value
  | 0, _, _ => .outOfFuel
  | fuel + 1, c, arg => evalF tc fuel (c.env.extend arg) c.body
end

mutual
/-- `TypeChecker::quote`. -/
def quoteF (tc : TypeChecker) : Nat → Nat → Value → RunResult Term
  | 0, _, _ => .outOfFuel
  | fuel + 1, level, v =>
    match v with
    | .Neutral n => quoteNeutralF tc fuel level n
    | .Universe l => .ok (.Universe l)
    | .Lambda c => do
      let bodyVal ← applyClosureF tc fuel c (.Neutral (.Var level))
      let body ← quoteF tc fuel (level + 1) bodyVal
      pure (.Lambda (.Universe .Zero) body)
    | .Pi a c => do
      let aTerm ← quoteF tc fuel level a
      let bVal ← applyClosureF tc fuel c (.Neutral (.Var level))
      let bTerm ← quoteF tc fuel (level + 1) bVal
      pure (.Pi aTerm bTerm)
    | .PathType a s e => do
      let aT ← quoteF tc fuel level a
      let sT ← quoteF tc fuel level s
      let eT ← quoteF tc fuel level e
      pure (.PathType aT sT eT)
    | .PathLambda (.mk env body) => do
      let bodyVal ← evalF tc fuel env body
      let bT ← quoteF tc fuel level bodyVal
      pure (.PathLambda bT)
    | .Interval i => .ok (.Interval i)

/-- `TypeChecker::quote_neutral`. -/
def quoteNeutralF (tc : TypeChecker) : Nat → Nat → Neutral → RunResult Term
  | 0, _, _ => .outOfFuel
  | fuel + 1, level, n =>
    match n with
    | .Var idx => .ok (.Var idx)
    | .App f a => do
      let fT ← quoteNeutralF tc fuel level f
      let aT ← quoteF tc fuel level a
      pure (.App fT aT)
    | .PathApp p i => do
      let pT ← quoteNeutralF tc fuel level p
      pure (.PathApp pT i)
    | .Transport _ _ _ _ => .fault "not yet implemented: quote"
end

mutual
/-- `TypeChecker::values_equal`: the conversion check, carrying the
explicit recursion-depth counter compared against `max_depth`. -/
def valuesEqualF (tc : TypeChecker) : Nat → Nat → Value → Value → Nat → RunResult Bool
  | 0, _, _, _, _ => .outOfFuel
  | fuel + 1, level, v1, v2, depth =>
    if depth > tc.maxDepth then .error .UnificationFailure
    else
      match v1, v2 with
      | .Universe l1, .Universe l2 => .ok (decide (l1 = l2))
      | .Lambda c1, .Lambda c2 => do
        let b1 ← applyClosureF tc fuel c1 (.Neutral (.Var level))
        let b2 ← applyClosureF tc fuel c2 (.Neutral (.Var level))
        valuesEqualF tc fuel (level + 1) b1 b2 (depth + 1)
      | .Pi a1 c1, .Pi a2 c2 => do
        let aEq ← valuesEqualF tc fuel level a1 a2 (depth + 1)
        if aEq then do
          let b1 ← applyClosureF tc fuel c1 (.Neutral (.Var level))
          let b2 ← applyClosureF tc fuel c2 (.Neutral (.Var level))
          valuesEqualF tc fuel (level + 1) b1 b2 (depth + 1)
        else pure false
      | .Neutral n1, .Neutral n2 => neutralsEqualF tc fuel level n1 n2 depth
      | _, _ => pure false

/-- `TypeChecker::neutrals_equal`. -/
def neutralsEqualF (tc : TypeChecker) : Nat → Nat → Neutral → Neutral → Nat → RunResult Bool
  | 0, _, _, _, _ => .outOfFuel
  | fuel + 1, level, n1, n2, depth =>
    match n1, n2 with
    | .Var i1, .Var i2 => .ok (decide (i1 = i2))
    | .App f1 a1, .App f2 a2 => do
      let fEq ← neutralsEqualF tc fuel level f1 f2 (depth + 1)
      if fEq then valuesEqualF tc fuel level a1 a2 (depth + 1)
      else pure false
    | _, _ => pure false
end

/-- `TypeChecker::infer_universe_level`. -/
def inferUniverseLevel (ctx : Context) (ty : Value) : RunResult Level :=
  match ty with
  | .Universe l => .ok l
  | _ => .error (.NotAUniverse ty)

/-- `TypeChecker::check_equal`. -/
def checkEqualF (tc : TypeChecker) (fuel : Nat) (ctx : Context) (v1 v2 ty : Value) :
    RunResult Unit := do
  let eq ← valuesEqualF tc fuel ctx.types.length v1 v2 0
  if eq then pure () else .error (.TypeMismatch v2 v1)

mutual
/-- `TypeChecker::check` (bidirectional checking mode). -/
def checkF (tc : TypeChecker) : Nat → Context → Term → Value → RunResult Unit
  | 0, _, _, _ => .outOfFuel
  | fuel + 1, ctx, term, ty =>
    match term, ty with
    | .Lambda _ body, .Pi aTy closure => do
      let extendedCtx := ctx.extend aTy
      let bTy ← applyClosureF tc fuel closure (.Neutral (.Var ctx.types.length))
      checkF tc fuel extendedCtx body bTy
    | .PathLambda body, .PathType aTy startV endV => do
      let atZero := substituteInterval body .Zero
      let atOne := substituteInterval body .One
      let valZero ← evalF tc fuel ctx.env atZero
      let valOne ← evalF tc fuel ctx.env atOne
      checkEqualF tc fuel ctx valZero startV aTy
      checkEqualF tc fuel ctx valOne endV aTy
      pure ()
    | term, ty => do
      let inferred ← inferF tc fuel ctx term
      checkEqualF tc fuel ctx inferred ty (.Universe .Omega)

/-- `TypeChecker::infer` (bidirectional inference mode). -/
def inferF (tc : TypeChecker) : Nat → Context → Term → RunResult Value
  | 0, _, _ => .outOfFuel
  | fuel + 1, ctx, term =>
    match term with
    | .Var idx =>
      match ctx.lookup idx with
      | some v => .ok v
      | none => .error (.UnboundVariable idx)
    | .Universe l => .ok (.Universe l.succ)
    | .Pi a b => do
      let aVal ← evalF tc fuel ctx.env a
      let aLevel ← inferUniverseLevel ctx aVal
      let extendedCtx := ctx.extend aVal
      let bVal ← evalF tc fuel extendedCtx.env b
      let bLevel ← inferUniverseLevel extendedCtx bVal
      pure (.Universe (aLevel.max bLevel))
    | .App f a => do
      let fTy ← inferF tc fuel ctx f
      match fTy with
      | .Pi aTy closure => do
        checkF tc fuel ctx a aTy
        let argVal ← evalF tc fuel ctx.env a
        applyClosureF tc fuel closure argVal
      | _ => .error (.NotAFunction fTy)
    | .PathType a s e => do
      let aVal ← evalF tc fuel ctx.env a
      let aLevel ← inferUniverseLevel ctx aVal
      let startVal ← evalF tc fuel ctx.env s
      let endVal ← evalF tc fuel ctx.env e
      checkF tc fuel ctx s aVal
      checkF tc fuel ctx e aVal
      pure (.Universe aLevel)
    | .PathApp p _ => do
      let pTy ← inferF tc fuel ctx p
      match pTy with
      | .PathType aTy _ _ => pure aTy
      | _ => .error (.NotAPath pTy)
    | .Lambda a _ => do
      let aVal ← evalF tc fuel ctx.env a
      checkF tc fuel ctx a (.Universe .Omega)
      .error (.TypeMismatch (.Universe .Omega) aVal)
    | _ => .fault "not yet implemented: infer"
end

/-- `TypeChecker::normalize`. -/
def normalizeF (tc : TypeChecker) (fuel : Nat) (env : Environment) (term : Term) :
    RunResult Term := do
  let v ← evalF tc fuel env term
  quoteF tc fuel env.values.length v

/-- Modelled from the spec: quoting a binder introduces a fresh
`Neutral (Var level)` for the bound position, applies the closure to it, and
quotes the resulting value at `level + 1`. -/
def quoteBinderClaim (tc : TypeChecker) (fuel level : Nat) (env : Environment) (body : Term) :
    RunResult Term := do
  let bodyVal ← applyClosureF tc fuel (.mk env body) (.Neutral (.Var level))
  quoteF tc fuel (level + 1) bodyVal

/-- Modelled from the spec: the claimed behaviour of `quote` on a
`PathLambda` closure — fresh variable, closure application, quoting at
`level + 1`. -/
def quotePathLambdaClaim (tc : TypeChecker) (fuel level : Nat) (env : Environment) (body : Term) :
    RunResult Term := do
  let bT ← quoteBinderClaim tc fuel level env body
  pure (.PathLambda bT)

/-- The self-application lambda `λ (x : Type₀). x x`. -/
def deltaTerm : Term := .Lambda (.Universe .Zero) (.App (.Var 0) (.Var 0))

/-- The diverging term `Ω = (λ x. x x) (λ x. x x)`. -/
def omegaTerm : Term := .App deltaTerm deltaTerm

/-- The value `eval` produces for `deltaTerm` in the empty environment. -/
def deltaValue : Value := .Lambda (.mk Environment.new (.App (.Var 0) (.Var 0)))

/-- The environment reached while evaluating `omegaTerm`. -/
def loopEnv : Environment := Environment.new.extend deltaValue

/-- Contexts reachable from `Context::new` by a sequence of `extend` calls. -/
inductive ReachableCtx : Context → Prop where
  | base : ReachableCtx Context.new
  | step (ty : Value) {c : Context} : ReachableCtx c → ReachableCtx (c.extend ty)

/-- `r.approx s`: running with less fuel either runs out of fuel or produces
exactly the same outcome. -/
def RunResult.approx {α : Type} (r s : RunResult α) : Prop :=
  r = .outOfFuel ∨ r = s

@[simp] theorem RunResult.pure_eq {α : Type} (a : α) :
    (pure a : RunResult α) = .ok a := rfl

@[simp] theorem RunResult.bind_ok {α β : Type} (a : α) (f : α → RunResult β) :
    (RunResult.ok a >>= f) = f a := rfl

@[simp] theorem RunResult.bind_error {α β : Type} (e : TypeError) (f : α → RunResult β) :
    (RunResult.error e >>= f) = .error e := rfl

@[simp] theorem RunResult.bind_fault {α β : Type} (m : String) (f : α → RunResult β) :
    (RunResult.fault m >>= f) = .fault m := rfl

@[simp] theorem RunResult.bind_outOfFuel {α β : Type} (f : α → RunResult β) :
    ((RunResult.outOfFuel : RunResult α) >>= f) = .outOfFuel := rfl

theorem RunResult.bind_assoc {α β γ : Type} (a : RunResult α)
    (f : α → RunResult β) (g : β → RunResult γ) :
    ((a >>= f) >>= g) = a >>= fun x => f x >>= g := by
  cases a <;> rfl

theorem RunResult.bind_eq_ok {α β : Type} {a : RunResult α} {f : α → RunResult β} {b : β}
    (h : (a >>= f) = .ok b) : ∃ x, a = .ok x ∧ f x = .ok b := by
  cases a with
  | ok x => exact ⟨x, rfl, h⟩
  | error e => exact absurd h (by simp)
  | fault m => exact absurd h (by simp)
  | outOfFuel => exact absurd h (by simp)

theorem RunResult.approx.bind {α β : Type} {a a' : RunResult α} {f f' : α → RunResult β}
    (h : a.approx a') (hf : ∀ x, (f x).approx (f' x)) : (a >>= f).approx (a' >>= f') := by
  rcases h with h | h
  · subst h; exact Or.inl rfl
  · subst h
    cases a with
    | ok x => exact hf x
    | error e => exact Or.inr rfl
    | fault m => exact Or.inr rfl
    | outOfFuel => exact Or.inl rfl

theorem RunResult.approx_ok {α : Type} {r s : RunResult α} {v : α}
    (h : r.approx s) (hr : r = RunResult.ok v) : s = .ok v := by
  cases hr
  rcases h with h | h
  · exact absurd h (by simp)
  · exact h.symm

theorem Environment.lookup_extend_zero (e : Environment) (v : Value) :
    (e.extend v).lookup 0 = some v := by
  show Environment.lookup (.mk (e.values ++ [v])) 0 = some v
  rw [Environment.lookup]
  have hlen : (Environment.values (.mk (e.values ++ [v]))).length = e.values.length + 1 := by
    simp [Environment.values]
  rw [if_pos (by omega)]
  simp [Environment.values]

/-- Fuel monotonicity for the evaluation cluster: one more unit of fuel
either preserves the outcome or rescues an `outOfFuel`. -/
theorem evalCluster_mono (tc : TypeChecker) :
    ∀ fuel : Nat,
      (∀ env t, (evalF tc fuel env t).approx (evalF tc (fuel + 1) env t)) ∧
      (∀ f a, (applyValueF tc fuel f a).approx (applyValueF tc (fuel + 1) f a)) ∧
      (∀ p i, (applyPathF tc fuel p i).approx (applyPathF tc (fuel + 1) p i)) ∧
      (∀ c v, (applyClosureF tc fuel c v).approx (applyClosureF tc (fuel + 1) c v)) := by
  intro fuel
  induction fuel with
  | zero => refine ⟨?_, ?_, ?_, ?_⟩ <;> intros <;> exact Or.inl rfl
  | succ n ih =>
    obtain ⟨ihE, ihV, ihP, ihC⟩ := ih
    refine ⟨?_, ?_, ?_, ?_⟩
    · intro env t
      cases t with
      | Var idx => exact Or.inr rfl
      | Universe l => exact Or.inr rfl
      | Lambda d b => exact Or.inr rfl
      | Pi a b =>
        exact RunResult.approx.bind (ihE env a) (fun _ => Or.inr rfl)
      | App f a =>
        exact RunResult.approx.bind (ihE env f) fun fv =>
          RunResult.approx.bind (ihE env a) fun av => ihV fv av
      | PathType a s e =>
        exact RunResult.approx.bind (ihE env a) fun av =>
          RunResult.approx.bind (ihE env s) fun sv =>
            RunResult.approx.bind (ihE env e) fun ev => Or.inr rfl
      | PathLambda b => exact Or.inr rfl
      | PathApp p i =>
        exact RunResult.approx.bind (ihE env p) fun pv => ihP pv i
      | Interval i => exact Or.inr rfl
      | Transport A i j t => exact Or.inr rfl
      | Hcomp A sys base => exact Or.inr rfl
    · intro f a
      cases f with
      | Lambda c => exact ihC c a
      | Neutral n => exact Or.inr rfl
      | Universe l => exact Or.inr rfl
      | Pi x c => exact Or.inr rfl
      | PathType A s e => exact Or.inr rfl
      | PathLambda c => exact Or.inr rfl
      | Interval i => exact Or.inr rfl
    · intro p i
      cases p with
      | PathLambda c =>
        cases c with
        | mk env body => exact ihE env (substituteInterval body i)
      | Neutral n => exact Or.inr rfl
      | Universe l => exact Or.inr rfl
      | Lambda c => exact Or.inr rfl
      | Pi x c => exact Or.inr rfl
      | PathType A s e => exact Or.inr rfl
      | Interval j => exact Or.inr rfl
    · intro c v
      exact ihE (c.env.extend v) c.body

theorem evalF_mono_succ {tc : TypeChecker} {fuel : Nat} {env : Environment} {t : Term}
    {v : Value} (h : evalF tc fuel env t = .ok v) : evalF tc (fuel + 1) env t = .ok v :=
  RunResult.approx_ok ((evalCluster_mono tc fuel).1 env t) h

theorem evalF_mono_le {tc : TypeChecker} {fuel fuel' : Nat} {env : Environment} {t : Term}
    {v : Value} (hle : fuel ≤ fuel') (h : evalF tc fuel env t = .ok v) :
    evalF tc fuel' env t = .ok v := by
  induction hle with
  | refl => exact h
  | step _ ih => exact evalF_mono_succ ih

/-- C2: `substitute_interval`, contrary to the claim, is not a total
structural recursion over `Term` — the constructors `Pi`, `PathType`,
`PathLambda` and `PathApp` are returned unchanged, leaving their
interval-dependent children unsubstituted. -/
theorem substituteInterval_not_structural :
    substituteInterval (.Pi (.Interval (.Var 0)) (.Interval (.Var 0))) .Zero =
      .Pi (.Interval (.Var 0)) (.Interval (.Var 0)) ∧
    substituteInterval (.PathType (.Interval (.Var 0)) (.Var 0) (.Var 1)) .One =
      .PathType (.Interval (.Var 0)) (.Var 0) (.Var 1) ∧
    substituteInterval (.PathLambda (.Interval (.Var 0))) .Zero =
      .PathLambda (.Interval (.Var 0)) ∧
    substituteInterval (.PathApp (.Interval (.Var 0)) (.Var 0)) .Zero =
      .PathApp (.Interval (.Var 0)) (.Var 0) :=
  ⟨rfl, rfl, rfl, rfl⟩

theorem evalF_loop_aux (tc : TypeChecker) :
    ∀ fuel : Nat, evalF tc fuel loopEnv (.App (.Var 0) (.Var 0)) = .outOfFuel := by
  intro fuel
  induction fuel using Nat.strong_induction_on with
  | _ fuel ih =>
    match fuel with
    | 0 => rfl
    | 1 => rfl
    | 2 => rfl
    | (m + 3) => exact ih m (by omega)

/-- C3: the evaluator diverges on `Ω = (λ x. x x) (λ x. x x)`: for every
recursion budget and every `max_depth` setting, the fueled model of `eval`
exhausts its fuel — the source's `eval` carries no depth bound at all, so
the claim that it is total under `max_depth` fails. -/
theorem eval_omega_diverges (tc : TypeChecker) :
    ∀ fuel : Nat, evalF tc fuel Environment.new omegaTerm = .outOfFuel := by
  intro fuel
  match fuel with
  | 0 => rfl
  | 1 => rfl
  | 2 => rfl
  | (m + 3) => exact evalF_loop_aux tc m

/-- C4: `infer` on an `Interval` term reaches the `todo!()` branch — an
uncaught fault, not a tagged `Result` error from the §7 taxonomy. -/
theorem infer_interval_fault :
    inferF TypeChecker.new 5 Context.new (.Interval .Zero) =
      .fault "not yet implemented: infer" := rfl

/-- C5 counterexample: quoting this `PathLambda` value at level 5 produces
the body `Var 0` (the closure body is evaluated in its own environment and
quoted at the same level), while the claimed fresh-variable treatment would
produce `Var 5`. -/
theorem quote_pathLambda_counterexample :
    quoteF TypeChecker.new 10 5 (.PathLambda (.mk Environment.new (.Var 0))) =
      .ok (.PathLambda (.Var 0)) ∧
    quotePathLambdaClaim TypeChecker.new 10 5 Environment.new (.Var 0) =
      .ok (.PathLambda (.Var 5)) ∧
    Term.PathLambda (.Var 0) ≠ Term.PathLambda (.Var 5) := by
  refine ⟨rfl, rfl, ?_⟩
  simp

/-- C6 counterexample: normalizing `(λ x : U₀. x) (λ y : U₁. y)` (a closed
argument) yields a lambda whose domain annotation has been replaced by the
`Universe Zero` placeholder, so the result is not the argument itself. -/
theorem normalize_beta_counterexample :
    normalizeF TypeChecker.new 10 Environment.new
        (.App (.Lambda (.Universe .Zero) (.Var 0)) (.Lambda (.Universe (.Succ 1)) (.Var 0))) =
      .ok (.Lambda (.Universe .Zero) (.Var 0)) ∧
    Term.Lambda (.Universe .Zero) (.Var 0) ≠ .Lambda (.Universe (.Succ 1)) (.Var 0) := by
  refine ⟨rfl, ?_⟩
  simp

/-- C1: checking `PathLambda body` against `PathType A a b` substitutes the
interval endpoints `Zero`/`One` into the body, evaluates both, and succeeds
exactly when both results are convertible to `a` resp. `b`; a conversion
failure at either endpoint produces the corresponding `TypeMismatch` error. -/
theorem check_pathLambda_boundary (tc : TypeChecker) (fuel : Nat) (ctx : Context)
    (body : Term) (A a b v0 v1 : Value)
    (h0 : evalF tc fuel ctx.env (substituteInterval body .Zero) = .ok v0)
    (h1 : evalF tc fuel ctx.env (substituteInterval body .One) = .ok v1) :
    (checkF tc (fuel + 1) ctx (.PathLambda body) (.PathType A a b) = .ok () ↔
      (valuesEqualF tc fuel ctx.types.length v0 a 0 = .ok true ∧
       valuesEqualF tc fuel ctx.types.length v1 b 0 = .ok true)) ∧
    (valuesEqualF tc fuel ctx.types.length v0 a 0 = .ok false →
      checkF tc (fuel + 1) ctx (.PathLambda body) (.PathType A a b) =
        .error (.TypeMismatch a v0)) ∧
    (valuesEqualF tc fuel ctx.types.length v0 a 0 = .ok true →
     valuesEqualF tc fuel ctx.types.length v1 b 0 = .ok false →
      checkF tc (fuel + 1) ctx (.PathLambda body) (.PathType A a b) =
        .error (.TypeMismatch b v1)) := by
  simp only [checkF, checkEqualF, h0, h1, RunResult.bind_ok]
  cases hE0 : valuesEqualF tc fuel ctx.types.length v0 a 0 with
  | ok b0 =>
    cases b0 with
    | false => simp_all
    | true =>
      cases hE1 : valuesEqualF tc fuel ctx.types.length v1 b 0 with
      | ok b1 => cases b1 with
        | false => simp_all
        | true => simp_all
      | error e => simp_all
      | fault m => simp_all
      | outOfFuel => simp_all
  | error e => simp_all
  | fault m => simp_all
  | outOfFuel => simp_all

/-- C1 witness at a concrete instance: `PathLambda (Universe Zero)` against
`PathType (Universe (Succ 1)) (Universe Zero) (Universe Zero)`. -/
theorem check_pathLambda_boundary_witness :
    (checkF TypeChecker.new 3 Context.new (.PathLambda (.Universe .Zero))
        (.PathType (.Universe (.Succ 1)) (.Universe .Zero) (.Universe .Zero)) = .ok () ↔
      (valuesEqualF TypeChecker.new 2 Context.new.types.length
          (.Universe .Zero) (.Universe .Zero) 0 = .ok true ∧
       valuesEqualF TypeChecker.new 2 Context.new.types.length
          (.Universe .Zero) (.Universe .Zero) 0 = .ok true)) ∧
    (valuesEqualF TypeChecker.new 2 Context.new.types.length
        (.Universe .Zero) (.Universe .Zero) 0 = .ok false →
      checkF TypeChecker.new 3 Context.new (.PathLambda (.Universe .Zero))
        (.PathType (.Universe (.Succ 1)) (.Universe .Zero) (.Universe .Zero)) =
        .error (.TypeMismatch (.Universe .Zero) (.Universe .Zero))) ∧
    (valuesEqualF TypeChecker.new 2 Context.new.types.length
        (.Universe .Zero) (.Universe .Zero) 0 = .ok true →
     valuesEqualF TypeChecker.new 2 Context.new.types.length
        (.Universe .Zero) (.Universe .Zero) 0 = .ok false →
      checkF TypeChecker.new 3 Context.new (.PathLambda (.Universe .Zero))
        (.PathType (.Universe (.Succ 1)) (.Universe .Zero) (.Universe .Zero)) =
        .error (.TypeMismatch (.Universe .Zero) (.Universe .Zero))) :=
  check_pathLambda_boundary TypeChecker.new 2 Context.new (.Universe .Zero)
    (.Universe (.Succ 1)) (.Universe .Zero) (.Universe .Zero)
    (.Universe .Zero) (.Universe .Zero) rfl rfl

/-- C5 (amended): `quote` treats `Lambda` and `Pi` exactly as the claim says
(fresh `Neutral (Var level)`, closure applied, body quoted at `level + 1`),
but a `PathLambda` closure is instead evaluated in its own environment with
no fresh variable and quoted at the same level. -/
theorem quote_binders_amended (tc : TypeChecker) (fuel level : Nat) :
    (∀ env body, quoteF tc (fuel + 1) level (.Lambda (.mk env body)) =
      (quoteBinderClaim tc fuel level env body >>= fun bT =>
        pure (.Lambda (.Universe .Zero) bT))) ∧
    (∀ a env body, quoteF tc (fuel + 1) level (.Pi a (.mk env body)) =
      (quoteF tc fuel level a >>= fun aT =>
        quoteBinderClaim tc fuel level env body >>= fun bT =>
        pure (.Pi aT bT))) ∧
    (∀ env body, quoteF tc (fuel + 1) level (.PathLambda (.mk env body)) =
      (evalF tc fuel env body >>= fun bodyVal =>
        quoteF tc fuel level bodyVal >>= fun bT =>
        pure (.PathLambda bT))) := by
  refine ⟨fun env body => ?_, fun a env body => ?_, fun env body => rfl⟩
  · simp only [quoteF, quoteBinderClaim, RunResult.bind_assoc]
  · simp only [quoteF, quoteBinderClaim, RunResult.bind_assoc]

/-- C6 (amended): applying the identity lambda to `t` normalizes to the same
result as normalizing `t` itself whenever `t` evaluates successfully; the
result need not be `t` syntactically, because `quote` rewrites lambda domain
annotations (see the counterexample). -/
theorem normalize_beta_amended (tc : TypeChecker) (fuel : Nat) (env : Environment)
    (dom t : Term) (v : Value) (h : evalF tc fuel env t = .ok v) :
    normalizeF tc (fuel + 3) env (.App (.Lambda dom (.Var 0)) t) =
      normalizeF tc (fuel + 3) env t := by
  cases fuel with
  | zero => exact absurd h (by simp [evalF])
  | succ m =>
    have h3 : evalF tc (m + 4) env t = .ok v := evalF_mono_le (by omega) h
    have hredex : evalF tc (m + 4) env (.App (.Lambda dom (.Var 0)) t) = .ok v := by
      show (evalF tc (m + 3) env (.Lambda dom (.Var 0)) >>= fun fv =>
            evalF tc (m + 3) env t >>= fun av => applyValueF tc (m + 3) fv av) = .ok v
      rw [show evalF tc (m + 3) env (.Lambda dom (.Var 0)) =
            .ok (.Lambda (.mk env (.Var 0))) from rfl]
      rw [evalF_mono_le (show m + 1 ≤ m + 3 by omega) h]
      simp only [RunResult.bind_ok]
      show evalF tc (m + 1) (env.extend v) (.Var 0) = .ok v
      show (match (env.extend v).lookup 0 with
            | some w => RunResult.ok w
            | none => .ok (.Neutral (.Var 0))) = .ok v
      rw [Environment.lookup_extend_zero]
    show (evalF tc (m + 4) env (.App (.Lambda dom (.Var 0)) t) >>= fun w =>
          quoteF tc (m + 4) env.values.length w) =
        (evalF tc (m + 4) env t >>= fun w => quoteF tc (m + 4) env.values.length w)
    rw [hredex, h3]

/-- C6 amended witness at a concrete instance. -/
theorem normalize_beta_amended_witness :
    normalizeF TypeChecker.new 4 Environment.new
        (.App (.Lambda (.Universe .Zero) (.Var 0)) (.Universe .Zero)) =
      normalizeF TypeChecker.new 4 Environment.new (.Universe .Zero) :=
  normalize_beta_amended TypeChecker.new 1 Environment.new (.Universe .Zero)
    (.Universe .Zero) (.Universe .Zero) rfl

/-- C7 counterexample: on a lambda whose domain is an `Interval` term,
`infer` reaches the `todo!()` branch (through checking the domain), so it
faults instead of returning a tagged error. -/
theorem infer_lambda_fault_counterexample :
    inferF TypeChecker.new 10 Context.new (.Lambda (.Interval .Zero) (.Var 0)) =
      .fault "not yet implemented: infer" := rfl

/-- C7 (amended): `infer` never assigns a type to a lambda — for every
context, fuel and lambda term, the result is never `ok`. -/
theorem infer_lambda_never_ok (tc : TypeChecker) (fuel : Nat) (ctx : Context)
    (dom body : Term) (v : Value) :
    inferF tc fuel ctx (.Lambda dom body) ≠ .ok v := by
  cases fuel with
  | zero => simp [inferF]
  | succ n =>
    show (evalF tc n ctx.env dom >>= fun aVal =>
          checkF tc n ctx dom (.Universe .Omega) >>= fun _ =>
          RunResult.error (.TypeMismatch (.Universe .Omega) aVal)) ≠ .ok v
    cases evalF tc n ctx.env dom with
    | ok aVal =>
      simp only [RunResult.bind_ok]
      cases checkF tc n ctx dom (.Universe .Omega) <;> simp
    | error e => simp
    | fault m => simp
    | outOfFuel => simp

/-- C7 witness: a concrete application of the amended theorem. -/
theorem infer_lambda_never_ok_witness :
    inferF TypeChecker.new 3 Context.new (.Lambda (.Universe .Zero) (.Var 0)) ≠
      .ok (.Universe (.Succ 1)) :=
  infer_lambda_never_ok TypeChecker.new 3 Context.new (.Universe .Zero) (.Var 0)
    (.Universe (.Succ 1))

/-- C8: `Context::extend` is pure with respect to its receiver: the receiver
after the call is the original context, the new context appends the type, and
any `check` run against the original context yields the identical result
after the extension. -/
theorem context_extend_pure (ctx : Context) (ty : Value) :
    (ctx.extendMut ty).2 = ctx ∧
    (ctx.extendMut ty).1.types = ctx.types ++ [ty] ∧
    (∀ tc fuel t T r, checkF tc fuel ctx t T = r →
      checkF tc fuel (ctx.extendMut ty).2 t T = r) :=
  ⟨rfl, rfl, fun _ _ _ _ _ h => h⟩

/-- C8 witness: a concrete successful check that still succeeds against the
receiver after an extension. -/
theorem context_extend_pure_witness :
    (Context.new.extendMut (.Universe .Zero)).2 = Context.new ∧
    checkF TypeChecker.new 4 (Context.new.extendMut (.Universe .Zero)).2
      (.Universe .Zero) (.Universe (.Succ 1)) = .ok () :=
  ⟨(context_extend_pure Context.new (.Universe .Zero)).1,
   (context_extend_pure Context.new (.Universe .Zero)).2.2 TypeChecker.new 4
     (.Universe .Zero) (.Universe (.Succ 1)) (.ok ()) rfl⟩

/-- C9: whenever quoting a `Value.Lambda` succeeds, the resulting term is a
`Term.Lambda` whose domain annotation is the placeholder `Universe Zero`,
regardless of the closure. -/
theorem quote_lambda_placeholder_domain (tc : TypeChecker) (fuel level : Nat)
    (c : Closure) (t : Term) (h : quoteF tc fuel level (.Lambda c) = .ok t) :
    ∃ body, t = .Lambda (.Universe .Zero) body := by
  cases fuel with
  | zero => exact absurd h (by simp [quoteF])
  | succ n =>
    have h' : (applyClosureF tc n c (.Neutral (.Var level)) >>= fun bodyVal =>
        quoteF tc n (level + 1) bodyVal >>= fun body =>
        pure (.Lambda (.Universe .Zero) body)) = .ok t := h
    obtain ⟨bv, hbv, h2⟩ := RunResult.bind_eq_ok h'
    obtain ⟨bt, hbt, h3⟩ := RunResult.bind_eq_ok h2
    exact ⟨bt, (RunResult.ok.inj h3).symm⟩

/-- C9 witness: quoting a concrete lambda value. -/
theorem quote_lambda_placeholder_domain_witness :
    ∃ body, Term.Lambda (.Universe .Zero) (.Var 0) = .Lambda (.Universe .Zero) body :=
  quote_lambda_placeholder_domain TypeChecker.new 5 0 (.mk Environment.new (.Var 0))
    (.Lambda (.Universe .Zero) (.Var 0)) rfl

/-- C10: in every context reachable from `Context::new` by `extend` calls,
the types list and the environment have equal length, and the environment
entry at position `k` (from the oldest binding) is `Neutral (Var k)`. -/
theorem context_env_invariant (c : Context) (h : ReachableCtx c) :
    c.types.length = c.env.values.length ∧
    ∀ k, k < c.env.values.length →
      c.env.values[k]? = some (.Neutral (.Var k)) := by
  induction h with
  | base =>
    refine ⟨rfl, fun k hk => absurd hk ?_⟩
    simp [Context.new, Environment.new, Environment.values]
  | @step ty c0 hr ih =>
    obtain ⟨hl, hv⟩ := ih
    constructor
    · show (c0.types ++ [ty]).length =
        (c0.env.values ++ [Value.Neutral (.Var ((c0.types ++ [ty]).length - 1))]).length
      simp [hl]
    · intro k hk
      have hk2 : k < c0.env.values.length + 1 := by
        simpa [Context.extend, Environment.extend, Environment.values] using hk
      show (c0.env.values ++ [Value.Neutral (.Var ((c0.types ++ [ty]).length - 1))])[k]? =
        some (.Neutral (.Var k))
      have hidx : (c0.types ++ [ty]).length - 1 = c0.env.values.length := by
        simp [hl]
      rw [hidx]
      rcases Nat.lt_or_ge k c0.env.values.length with hlt | hge
      · rw [List.getElem?_append, if_pos hlt]
        exact hv k hlt
      · have hk3 : k = c0.env.values.length := by omega
        subst hk3
        simp

/-- C10 witness: the invariant at the concrete context
`Context.new.extend (Universe Zero)`. -/
theorem context_env_invariant_witness :
    (Context.new.extend (.Universe .Zero)).types.length =
        (Context.new.extend (.Universe .Zero)).env.values.length ∧
    ∀ k, k < (Context.new.extend (.Universe .Zero)).env.values.length →
      (Context.new.extend (.Universe .Zero)).env.values[k]? =
        some (.Neutral (.Var k)) :=
  context_env_invariant _ (.step _ .base)

end SCTT
